import Mathlib

set_option maxRecDepth 8000

/-!
Shallow embedding of `langgraph/checkpoint/sqlite.py`: the `SqliteSaver`
checkpoint store, its query builder (`search_where`, `_metadata_predicate`,
`_where_value`) and the `JsonPlusSerializerCompat` routing shim.

The SQLite table `checkpoints(thread_id, thread_ts, parent_ts, checkpoint,
metadata)` with `PRIMARY KEY (thread_id, thread_ts)` is modelled as a list of
rows; `INSERT OR REPLACE` deletes the row with the colliding primary key and
appends the new row.  `ORDER BY thread_ts DESC` is modelled by an insertion
sort on the descending byte order of the `thread_ts` TEXT column (SQLite's
BINARY collation on UTF-8 text coincides with lexicographic order on
code points, i.e. on `String.data`).  Serialized blobs are modelled by
storing the structured checkpoint/metadata values themselves: `serde.dumps`
followed by `serde.loads` round-trips, and none of the verified operations
inspect the byte form of the checkpoint payload.
-/

/-- Python runtime values as they occur in metadata filter documents and in
metadata documents themselves.  `pyFloat` keeps floats opaque (carried by
their literal representation; no float arithmetic occurs in the code under
verification).  `pyOther` stands for any value of a type other than
`NoneType/bool/int/float/str/dict/list`, carried by its `str()` rendering. -/
inductive PyVal : Type where
  | pyNone : PyVal
  | pyBool (b : Bool) : PyVal
  | pyInt (n : Int) : PyVal
  | pyFloat (v : String) : PyVal
  | pyStr (s : String) : PyVal
  | pyList (xs : List PyVal) : PyVal
  | pyDict (kvs : List (String × PyVal)) : PyVal
  | pyOther (v : String) : PyVal

/-- Python `isinstance(x, str)`. -/
def isinstanceStr : PyVal → Bool
  | .pyStr _ => true
  | _ => false

/-- Python `isinstance(x, int)`.  In Python `bool` is a subclass of `int`,
so `isinstance(True, int)` is `True`; the `pyBool` arm records exactly that. -/
def isinstanceInt : PyVal → Bool
  | .pyInt _ => true
  | .pyBool _ => true
  | _ => false

/-- Python `isinstance(x, float)`. -/
def isinstanceFloat : PyVal → Bool
  | .pyFloat _ => true
  | _ => false

/-- Python `isinstance(x, bool)`. -/
def isinstanceBool : PyVal → Bool
  | .pyBool _ => true
  | _ => false

/-- Python `isinstance(x, dict)`. -/
def isinstanceDict : PyVal → Bool
  | .pyDict _ => true
  | _ => false

/-- Python `isinstance(x, list)`. -/
def isinstanceList : PyVal → Bool
  | .pyList _ => true
  | _ => false

/-- Python `x is None`. -/
def isNone : PyVal → Bool
  | .pyNone => true
  | _ => false

/-- Python `str(x)` for the values of interest (only the `pyOther` arm is
ever reached by the code under verification, via the fallback branch of
`_where_value`). -/
def pyStrFn : PyVal → String
  | .pyNone => "None"
  | .pyBool true => "True"
  | .pyBool false => "False"
  | .pyInt n => toString n
  | .pyFloat v => v
  | .pyStr s => s
  | .pyList _ => "<list>"
  | .pyDict _ => "<dict>"
  | .pyOther v => v

/-- Escaping of one character inside a JSON string literal, as the `json`
stdlib module performs it for the characters that can occur here. -/
def jsonEscapeChar (c : Char) : String :=
  if c = Char.ofNat 34 then "\\\""
  else if c = Char.ofNat 92 then "\\\\"
  else if c = Char.ofNat 10 then "\\n"
  else if c = Char.ofNat 13 then "\\r"
  else if c = Char.ofNat 9 then "\\t"
  else String.singleton c

/-- Escaping of a JSON string literal body. -/
def jsonEscape (s : String) : String :=
  String.join (s.data.map jsonEscapeChar)

mutual
/-- Modelled from the spec: the value's canonical compact JSON encoding,
`json.dumps(value, separators=(",", ":"))` — "no inserted whitespace after
separators, so it matches the storage engine's own canonical extraction of
embedded JSON".  The `json` stdlib module is outside `src/`. -/
def jsonDumps : PyVal → String
  | .pyNone => "null"
  | .pyBool true => "true"
  | .pyBool false => "false"
  | .pyInt n => toString n
  | .pyFloat v => v
  | .pyStr s => "\"" ++ jsonEscape s ++ "\""
  | .pyList xs => "[" ++ jsonDumpsList xs ++ "]"
  | .pyDict kvs => "\x7b" ++ jsonDumpsKvs kvs ++ "\x7d"
  | .pyOther v => v

/-- Comma-separated compact encoding of JSON array elements. -/
def jsonDumpsList : List PyVal → String
  | [] => ""
  | [x] => jsonDumps x
  | x :: y :: xs => jsonDumps x ++ "," ++ jsonDumpsList (y :: xs)

/-- Comma-separated compact encoding of JSON object members, each rendered
as `"key":value` with no space after the colon. -/
def jsonDumpsKvs : List (String × PyVal) → String
  | [] => ""
  | [kv] => "\"" ++ jsonEscape kv.1 ++ "\":" ++ jsonDumps kv.2
  | kv :: kv2 :: kvs =>
      "\"" ++ jsonEscape kv.1 ++ "\":" ++ jsonDumps kv.2 ++ "," ++ jsonDumpsKvs (kv2 :: kvs)
end

/-- SQLite storage-class values, as they appear on either side of a
comparison inside the WHERE clause built by the query builder.  Reals are
kept opaque (carried by their representation). -/
inductive SqlVal : Type where
  | null : SqlVal
  | int (n : Int) : SqlVal
  | real (v : String) : SqlVal
  | text (t : String) : SqlVal
  deriving DecidableEq

/-- Modelled from the spec: how the `sqlite3` driver (outside `src/`) binds a
Python parameter value.  `None` binds as SQL NULL; `bool` is an `int`
subclass and binds as the integers 1/0; `int`, `float`, `str` bind as their
own storage class.  The query builder never hands the driver a `dict`/`list`
(it pre-encodes them to JSON text, see `whereValue`); those arms are given
their JSON text rendering so that the function is total. -/
def bindParam : PyVal → SqlVal
  | .pyNone => .null
  | .pyBool b => .int (if b then 1 else 0)
  | .pyInt n => .int n
  | .pyFloat v => .real v
  | .pyStr s => .text s
  | .pyList xs => .text (jsonDumps (.pyList xs))
  | .pyDict kvs => .text (jsonDumps (.pyDict kvs))
  | .pyOther v => .text v

/-- Modelled from the spec: the storage engine's `json_extract` rendering of
one embedded JSON value ("the storage engine's own canonical extraction of
embedded JSON").  JSON strings extract as TEXT, numbers as INTEGER/REAL,
`true`/`false` as the integers 1/0, `null` as SQL NULL, and nested
objects/arrays as their minified JSON text. -/
def jsonValToSql : PyVal → SqlVal
  | .pyNone => .null
  | .pyBool b => .int (if b then 1 else 0)
  | .pyInt n => .int n
  | .pyFloat v => .real v
  | .pyStr s => .text s
  | .pyList xs => .text (jsonDumps (.pyList xs))
  | .pyDict kvs => .text (jsonDumps (.pyDict kvs))
  | .pyOther v => .text v

/-- A metadata document: the JSON object stored in the `metadata` column,
as a key/value association list (Python dicts preserve insertion order and
have no duplicate keys). -/
abbrev Metadata := List (String × PyVal)

/-- Modelled from the spec: `json_extract(CAST(metadata AS TEXT), '$.k')`
evaluated by the storage engine on a stored metadata document: SQL NULL when
the key is absent, otherwise the extraction of the embedded value. -/
def json_extract (md : Metadata) (k : String) : SqlVal :=
  match (md.find? (fun kv => kv.1 == k)).map Prod.snd with
  | none => .null
  | some v => jsonValToSql v

/-- Modelled from the spec: the SQLite `=` comparison between two values of
known storage class (no column affinity applies to a `json_extract(...)`
expression).  A NULL operand never compares equal; values of distinct
storage classes are unequal; reals are compared by their (opaque)
representation. -/
def sqlEqVal : SqlVal → SqlVal → Bool
  | .null, _ => false
  | _, .null => false
  | .int m, .int n => m == n
  | .real a, .real b => a == b
  | .text a, .text b => a == b
  | _, _ => false

/-- Modelled from the spec: the SQLite `IS` comparison — null-safe equality
("IS-NULL-safe equality"): true on two NULLs, false on one NULL, ordinary
equality otherwise. -/
def sqlIsVal : SqlVal → SqlVal → Bool
  | .null, .null => true
  | a, b => sqlEqVal a b

/-- `_where_value` from `sqlite.py`: the operator string and parameter value
for one metadata filter value.  The branch structure and order follow the
source: `is None`, then `isinstance(·, str) or isinstance(·, int) or
isinstance(·, float)`, then `isinstance(·, bool)`, then
`isinstance(·, dict) or isinstance(·, list)`, else `str(value)`. -/
def whereValue (query_value : PyVal) : String × PyVal :=
  if isNone query_value then ("IS ?", .pyNone)
  else if isinstanceStr query_value || isinstanceInt query_value
      || isinstanceFloat query_value then ("= ?", query_value)
  else if isinstanceBool query_value then
    ("= ?", match query_value with
            | .pyBool b => .pyInt (if b then 1 else 0)
            | v => v)
  else if isinstanceDict query_value || isinstanceList query_value then
    ("= ?", .pyStr (jsonDumps query_value))
  else ("= ?", .pyStr (pyStrFn query_value))

/-- The per-key fragment `json_extract(CAST(metadata AS TEXT), '$.key') op`
of the WHERE clause built by `_metadata_predicate`. -/
def predicateFor (query_key op : String) : String :=
  "json_extract(CAST(metadata AS TEXT), \x27$." ++ query_key ++ "\x27) " ++ op

/-- Python's string slice `s[:-4]`: drop the last four characters (string
slicing in Python is per character). -/
def pySliceUpToMinus4 (s : String) : String :=
  String.mk (s.data.take (s.data.length - 4))

/-- `_metadata_predicate` from `sqlite.py`: for each filter entry append
`json_extract(CAST(metadata AS TEXT), '$.key') op AND ` to the predicate and
the entry's parameter to the parameter tuple; afterwards strip the trailing
`AND ` — `predicate[:-4]` — when the predicate is nonempty, leaving one
trailing space. -/
def metadataPredicate (metadata_filter : List (String × PyVal)) : String × List PyVal :=
  let predicate := String.join (metadata_filter.map
    (fun kv => predicateFor kv.1 (whereValue kv.2).1 ++ " AND "))
  let param_values := metadata_filter.map (fun kv => (whereValue kv.2).2)
  (if predicate == "" then predicate else pySliceUpToMinus4 predicate, param_values)

/-- `search_where` from `sqlite.py`: the full WHERE clause (with the `WHERE`
keyword) plus ordered parameter values, joining the metadata predicate with
the optional `thread_ts < ?` bound for `before`; an empty clause is
returned when there are no predicates at all. -/
def searchWhere (metadata_filter : List (String × PyVal)) (before : Option String) :
    String × List PyVal :=
  let mp := metadataPredicate metadata_filter
  let whereClause := "WHERE " ++ (if mp.1 == "" then "" else mp.1)
  let param_values : List PyVal := if mp.1 == "" then [] else mp.2
  let whereClause := whereClause ++
    (match before with
     | some _ => if mp.1 == "" then "thread_ts < ? " else "AND thread_ts < ? "
     | none => "")
  let param_values := param_values ++
    (match before with
     | some b => [PyVal.pyStr b]
     | none => [])
  if whereClause == "WHERE " then ("", []) else (whereClause, param_values)

/-- Evaluation of one per-key predicate of the generated WHERE clause on a
stored metadata document: the extracted field compared to the bound
parameter under the operator chosen by `whereValue` (`IS ?` is the null-safe
comparison, `= ?` the ordinary one). -/
def entryMatches (md : Metadata) (query_key : String) (query_value : PyVal) : Bool :=
  let op := (whereValue query_value).1
  let p := bindParam (whereValue query_value).2
  if op == "IS ?" then sqlIsVal (json_extract md query_key) p
  else sqlEqVal (json_extract md query_key) p

/-- Evaluation of the AND-joined metadata predicate: every filter entry must
match the stored metadata document. -/
def rowMatchesFilter (metadata_filter : List (String × PyVal)) (md : Metadata) : Bool :=
  metadata_filter.all (fun kv => entryMatches md kv.1 kv.2)

/-- A checkpoint value as `put` receives it: a dict with an `id` field (the
new version key) plus the rest of the snapshot payload, kept opaque. -/
structure Checkpoint : Type where
  id : String
  payload : String
  deriving DecidableEq

/-- A locator (`RunnableConfig`'s `configurable` dict): `thread_id` plus an
optional `thread_ts`.  `config["configurable"].get("thread_ts")` is `none`
when the key is absent. -/
structure Locator : Type where
  thread_id : String
  thread_ts : Option String := none
  deriving DecidableEq

/-- One row of the `checkpoints` table.  The `checkpoint` and `metadata`
BLOB columns are modelled by the structured values they serialize. -/
structure Row : Type where
  thread_id : String
  thread_ts : String
  parent_ts : Option String
  checkpoint : Checkpoint
  metadata : Metadata

/-- The `checkpoints` table: a list of rows.  The primary-key invariant is
`WF` below. -/
abbrev Db := List Row

/-- The primary key `(thread_id, thread_ts)` of a row. -/
def keyOf (r : Row) : String × String := (r.thread_id, r.thread_ts)

/-- The `PRIMARY KEY (thread_id, thread_ts)` table invariant: no two rows
share a key. -/
def WF (db : Db) : Prop := (db.map keyOf).Nodup

/-- A `CheckpointTuple`: the logical read result
`(config, checkpoint, metadata, parent_config)`. -/
structure CheckpointTuple : Type where
  config : Locator
  checkpoint : Checkpoint
  metadata : Metadata
  parent_config : Option Locator

/-- Python truthiness of an optional string: `None` and `""` are falsy
(this is the `if config["configurable"].get("thread_ts"):` and
`if parent_ts` test). -/
def pyTruthy : Option String → Bool
  | none => false
  | some s => s != ""

/-- The `parent_config` built by every read path:
`{"configurable": {"thread_id": tid, "thread_ts": parent_ts}} if parent_ts
else None`. -/
def parentConfigOf (tid : String) (parent_ts : Option String) : Option Locator :=
  if pyTruthy parent_ts then some ⟨tid, parent_ts⟩ else none

/-- The tuple built from a row by the latest-checkpoint branch of
`get_tuple` and by `list`/`search`: the config is rebuilt from the row's own
columns. -/
def rowToTuple (r : Row) : CheckpointTuple :=
  ⟨⟨r.thread_id, some r.thread_ts⟩, r.checkpoint, r.metadata,
    parentConfigOf r.thread_id r.parent_ts⟩

/-- Descending order on the `thread_ts` TEXT column, as a relation on rows:
`tsDesc a b` says `a` sorts no later than `b` under `ORDER BY thread_ts
DESC`, i.e. `b.thread_ts ≤ a.thread_ts` in SQLite's BINARY collation
(lexicographic on code points, hence on `String.data`). -/
def tsDesc (a b : Row) : Prop := b.thread_ts.data ≤ a.thread_ts.data

instance : DecidableRel tsDesc := fun a b =>
  inferInstanceAs (Decidable (b.thread_ts.data ≤ a.thread_ts.data))

instance : IsTotal Row tsDesc :=
  ⟨fun a b => le_total b.thread_ts.data a.thread_ts.data⟩

instance : IsTrans Row tsDesc :=
  ⟨fun _ _ _ h1 h2 => le_trans h2 h1⟩

/-- `ORDER BY thread_ts DESC` over a set of selected rows. -/
def sortDesc (rows : List Row) : List Row := rows.insertionSort tsDesc

/-- The SQL `LIMIT` clause as emitted by `list`/`search`:  the clause is
only appended under Python truthiness (`if limit:`), so `None` and `0` mean
no clause; SQLite treats a negative `LIMIT` as unbounded. -/
def applyLimit (limit : Option Int) (rows : List Row) : List Row :=
  match limit with
  | none => rows
  | some k => if k = 0 then rows else if k < 0 then rows else rows.take k.toNat

/-- The `thread_ts < ?` comparison used by the `before` bound (BINARY
collation on TEXT). -/
def tsLtB (ts bound : String) : Bool := decide (ts.data < bound.data)

/-- `SqliteSaver.put`: `INSERT OR REPLACE` of the row
`(str(thread_id), checkpoint["id"], config.get("thread_ts"), checkpoint,
metadata)` — the colliding primary-key row (if any) is deleted and the new
row inserted — and the returned locator
`{"thread_id": thread_id, "thread_ts": checkpoint["id"]}`. -/
def put (db : Db) (config : Locator) (checkpoint : Checkpoint) (metadata : Metadata) :
    Db × Locator :=
  (db.filter (fun r => !(r.thread_id == config.thread_id && r.thread_ts == checkpoint.id))
      ++ [⟨config.thread_id, checkpoint.id, config.thread_ts, checkpoint, metadata⟩],
   ⟨config.thread_id, some checkpoint.id⟩)

/-- `SqliteSaver.get_tuple`.  When the config's `thread_ts` is truthy the
exact `(thread_id, thread_ts)` row is fetched and the tuple reuses the
passed config; otherwise the query `WHERE thread_id = ? ORDER BY thread_ts
DESC LIMIT 1` fetches the row with the greatest `thread_ts` and the tuple's
config is rebuilt from the row.  `None` when nothing matches. -/
def get_tuple (db : Db) (config : Locator) : Option CheckpointTuple :=
  if pyTruthy config.thread_ts then
    match db.find? (fun r =>
        r.thread_id == config.thread_id && r.thread_ts == config.thread_ts.getD "") with
    | some r => some ⟨config, r.checkpoint, r.metadata,
        parentConfigOf config.thread_id r.parent_ts⟩
    | none => none
  else
    match (sortDesc (db.filter (fun r => r.thread_id == config.thread_id))).head? with
    | some r => some (rowToTuple r)
    | none => none

/-- `SqliteSaver.list`: `SELECT ... WHERE thread_id = ?` (plus
`AND thread_ts < ?` when `before` is given) `ORDER BY thread_ts DESC`
(plus `LIMIT` under Python truthiness of `limit`), each row yielded as a
`CheckpointTuple`. -/
def listCheckpoints (db : Db) (config : Locator) (before : Option String)
    (limit : Option Int) : List CheckpointTuple :=
  let selected := db.filter (fun r =>
    r.thread_id == config.thread_id &&
    (match before with
     | some b => tsLtB r.thread_ts b
     | none => true))
  (applyLimit limit (sortDesc selected)).map rowToTuple

/-- `SqliteSaver.search`: the cross-thread scan `SELECT ... FROM
checkpoints` with the WHERE clause built by `search_where` (metadata
predicate evaluated by `rowMatchesFilter`, optional `thread_ts < ?` bound),
`ORDER BY thread_ts DESC`, and `LIMIT` under Python truthiness. -/
def search (db : Db) (metadata_filter : List (String × PyVal)) (before : Option String)
    (limit : Option Int) : List CheckpointTuple :=
  let selected := db.filter (fun r =>
    rowMatchesFilter metadata_filter r.metadata &&
    (match before with
     | some b => tsLtB r.thread_ts b
     | none => true))
  (applyLimit limit (sortDesc selected)).map rowToTuple

/-- The `thread_ts` a read result carries in its config (every read path
stores `some thread_ts` there; the default is never used). -/
def tupleTs (t : CheckpointTuple) : String := t.config.thread_ts.getD ""

/-- A sequence of `put` calls against one thread: each element carries the
locator's optional `thread_ts`, the checkpoint and the metadata of one call,
applied left to right. -/
def applyPuts (tid : String) (ps : List (Option String × Checkpoint × Metadata)) (db : Db) :
    Db :=
  ps.foldl (fun d p => (put d ⟨tid, p.1⟩ p.2.1 p.2.2).1) db

/-- The row a single `put` call of `applyPuts` inserts. -/
def rowOfPut (tid : String) (p : Option String × Checkpoint × Metadata) : Row :=
  ⟨tid, p.2.1.id, p.1, p.2.1, p.2.2⟩

/- Helper lemmas about the model. -/

theorem strData_inj : ∀ {s t : String}, s.data = t.data → s = t := by
  intro s t h
  cases s
  cases t
  simp_all

theorem mem_sortDesc {r : Row} {rows : List Row} : r ∈ sortDesc rows ↔ r ∈ rows :=
  List.mem_insertionSort tsDesc

theorem sortDesc_sorted (rows : List Row) : List.Sorted tsDesc (sortDesc rows) :=
  List.sorted_insertionSort tsDesc rows

theorem sortDesc_perm (rows : List Row) : List.Perm (sortDesc rows) rows :=
  List.perm_insertionSort tsDesc rows

/-- The head of the descending sort is the row with the greatest
`thread_ts`, provided that row's `thread_ts` is not shared with any other
selected row. -/
theorem head_sortDesc_eq_max {rows : List Row} {r : Row} (hr : r ∈ rows)
    (hmax : ∀ r' ∈ rows, r'.thread_ts.data ≤ r.thread_ts.data)
    (huniq : ∀ r' ∈ rows, r'.thread_ts = r.thread_ts → r' = r) :
    (sortDesc rows).head? = some r := by
  cases h : sortDesc rows with
  | nil =>
    exact absurd (mem_sortDesc.mpr hr) (by simp [h])
  | cons x xs =>
    have hx : x ∈ rows := mem_sortDesc.mp (by simp [h])
    have hrx : r ∈ x :: xs := h ▸ mem_sortDesc.mpr hr
    rcases List.mem_cons.mp hrx with hrx | hrx
    · simp [hrx]
    · have hsorted : List.Sorted tsDesc (x :: xs) := h ▸ sortDesc_sorted rows
      have hle : r.thread_ts.data ≤ x.thread_ts.data :=
        List.rel_of_sorted_cons hsorted r hrx
      have hge : x.thread_ts.data ≤ r.thread_ts.data := hmax x hx
      have : x = r := huniq x hx (strData_inj (le_antisymm hge hle))
      simp [this]

/-- Under the primary-key invariant, rows with equal keys are equal. -/
theorem wf_key_inj {db : Db} (hwf : WF db) {r r' : Row} (hr : r ∈ db) (hr' : r' ∈ db)
    (hk : keyOf r = keyOf r') : r = r' :=
  List.inj_on_of_nodup_map hwf hr hr' hk

/-- The row inserted by `put`. -/
def putRow (config : Locator) (checkpoint : Checkpoint) (metadata : Metadata) : Row :=
  ⟨config.thread_id, checkpoint.id, config.thread_ts, checkpoint, metadata⟩

theorem put_fst (db : Db) (config : Locator) (checkpoint : Checkpoint) (metadata : Metadata) :
    (put db config checkpoint metadata).1 =
      db.filter (fun r =>
          !(r.thread_id == config.thread_id && r.thread_ts == checkpoint.id))
        ++ [putRow config checkpoint metadata] := rfl

/-- After a `put`, the rows carrying the written primary key are exactly the
one new row (unconditionally: `INSERT OR REPLACE` first deletes any
colliding row). -/
theorem put_filter_key (db : Db) (config : Locator) (checkpoint : Checkpoint)
    (metadata : Metadata) :
    (put db config checkpoint metadata).1.filter
        (fun r => r.thread_id == config.thread_id && r.thread_ts == checkpoint.id) =
      [putRow config checkpoint metadata] := by
  rw [put_fst, List.filter_append, List.filter_filter]
  have h1 : db.filter (fun r =>
      (!(r.thread_id == config.thread_id && r.thread_ts == checkpoint.id)) &&
      (r.thread_id == config.thread_id && r.thread_ts == checkpoint.id)) = [] := by
    apply List.filter_eq_nil_iff.mpr
    intro r _
    cases h : (r.thread_id == config.thread_id && r.thread_ts == checkpoint.id) <;> simp [h]
  have h2 : (putRow config checkpoint metadata).thread_id == config.thread_id &&
      (putRow config checkpoint metadata).thread_ts == checkpoint.id := by
    simp [putRow]
  simp [h1, h2, putRow]

/-- `put` preserves the primary-key invariant. -/
theorem wf_put (db : Db) (config : Locator) (checkpoint : Checkpoint) (metadata : Metadata)
    (hwf : WF db) : WF (put db config checkpoint metadata).1 := by
  rw [WF, put_fst, List.map_append]
  apply List.nodup_append.mpr
  refine ⟨?_, by simp, ?_⟩
  · exact ((List.filter_sublist db).map keyOf).nodup hwf
  · intro k hk hk'
    simp only [List.map_cons, List.map_nil, List.mem_singleton] at hk'
    rcases List.mem_map.mp hk with ⟨r, hr, hkr⟩
    rcases List.mem_filter.mp hr with ⟨_, hpred⟩
    apply absurd (hk' ▸ hkr)
    simp only [keyOf, putRow, Prod.mk.injEq, not_and]
    intro htid hts
    simp [htid, hts] at hpred

/-- C2: for every locator with a `thread_id` and every checkpoint, `put`
stores a row keyed by `(thread_id, checkpoint.id)` whose parent pointer is
the incoming locator's `thread_ts` (null when absent) and returns the
locator `(thread_id, checkpoint.id)`; and in the concrete scenario
`put({thread_id:"1"}, {id:"a"}, m1)` then
`put({thread_id:"1", checkpoint_id:"a"}, {id:"b"}, m2)`, a `get` on thread
"1" returns checkpoint "b" with parent config pointing at "a". -/
theorem c2_put_parent_pointer_and_chaining :
    (∀ (db : Db) (config : Locator) (checkpoint : Checkpoint) (metadata : Metadata),
      putRow config checkpoint metadata ∈ (put db config checkpoint metadata).1 ∧
      (putRow config checkpoint metadata).thread_id = config.thread_id ∧
      (putRow config checkpoint metadata).thread_ts = checkpoint.id ∧
      (putRow config checkpoint metadata).parent_ts = config.thread_ts ∧
      (putRow config checkpoint metadata).checkpoint = checkpoint ∧
      (putRow config checkpoint metadata).metadata = metadata ∧
      (put db config checkpoint metadata).2 = ⟨config.thread_id, some checkpoint.id⟩) ∧
    get_tuple
        (put (put [] ⟨"1", none⟩ ⟨"a", "payload-a"⟩
                [("source", PyVal.pyStr "input"), ("step", PyVal.pyInt 1)]).1
            ⟨"1", some "a"⟩ ⟨"b", "payload-b"⟩ [("step", PyVal.pyInt 2)]).1
        ⟨"1", none⟩ =
      some ⟨⟨"1", some "b"⟩, ⟨"b", "payload-b"⟩, [("step", PyVal.pyInt 2)],
        some ⟨"1", some "a"⟩⟩ := by
  constructor
  · intro db config checkpoint metadata
    exact ⟨List.mem_append_right _ (List.mem_singleton.mpr rfl),
      rfl, rfl, rfl, rfl, rfl, rfl⟩
  · rfl

/-- C4: the pair `(thread_id, thread_ts)` stays unique across `put` (the
reads do not modify the table); a colliding `put` replaces the record
wholesale, so the rows carrying the written key are exactly the one new row,
and a subsequent `list` of that thread shows exactly one tuple for that key,
carrying the latest payload. -/
theorem c4_primary_key_unique (db : Db) (config : Locator) (checkpoint : Checkpoint)
    (metadata : Metadata) (hwf : WF db) :
    WF (put db config checkpoint metadata).1 ∧
    (put db config checkpoint metadata).1.filter
        (fun r => r.thread_id == config.thread_id && r.thread_ts == checkpoint.id) =
      [putRow config checkpoint metadata] ∧
    (listCheckpoints (put db config checkpoint metadata).1 ⟨config.thread_id, none⟩
          none none).filter
        (fun t => t.config.thread_ts == some checkpoint.id) =
      [rowToTuple (putRow config checkpoint metadata)] := by
  refine ⟨wf_put db config checkpoint metadata hwf, put_filter_key db config checkpoint metadata, ?_⟩
  have hmatch : ∀ db' : Db,
      listCheckpoints db' ⟨config.thread_id, none⟩ none none =
        (sortDesc (db'.filter (fun r => r.thread_id == config.thread_id))).map rowToTuple := by
    intro db'
    simp [listCheckpoints, applyLimit]
  rw [hmatch, List.filter_map]
  have hcomp : ((fun t : CheckpointTuple => t.config.thread_ts == some checkpoint.id)
      ∘ rowToTuple) = (fun r : Row => r.thread_ts == checkpoint.id) := by
    funext r
    simp [rowToTuple]
  rw [hcomp]
  have hperm : List.Perm
      ((sortDesc ((put db config checkpoint metadata).1.filter
          (fun r => r.thread_id == config.thread_id))).filter
        (fun r => r.thread_ts == checkpoint.id))
      [putRow config checkpoint metadata] := by
    have h1 := (sortDesc_perm ((put db config checkpoint metadata).1.filter
        (fun r => r.thread_id == config.thread_id))).filter
        (fun r => r.thread_ts == checkpoint.id)
    rw [List.filter_filter] at h1
    have hswap : (fun a : Row => a.thread_ts == checkpoint.id && a.thread_id == config.thread_id)
        = (fun r : Row => r.thread_id == config.thread_id && r.thread_ts == checkpoint.id) := by
      funext a
      exact Bool.and_comm _ _
    rw [hswap] at h1
    have h2 : (put db config checkpoint metadata).1.filter
        (fun r => r.thread_id == config.thread_id && r.thread_ts == checkpoint.id) =
        [putRow config checkpoint metadata] := put_filter_key db config checkpoint metadata
    exact h2 ▸ h1
  have := hperm.map rowToTuple
  exact List.perm_singleton.mp this

/-- Strict increase of the written checkpoint ids along a sequence of `put`
calls (BINARY text order). -/
def putIdLt (p q : Option String × Checkpoint × Metadata) : Prop :=
  p.2.1.id.data < q.2.1.id.data

instance : IsTrans (Option String × Checkpoint × Metadata) putIdLt :=
  ⟨fun _ _ _ h1 h2 => lt_trans h1 h2⟩

instance : DecidableRel putIdLt := fun p q =>
  inferInstanceAs (Decidable (p.2.1.id.data < q.2.1.id.data))

theorem get_tuple_exact {db : Db} {tid ts : String} {r : Row} (hwf : WF db)
    (hts : ts ≠ "") (hr : r ∈ db) (h1 : r.thread_id = tid) (h2 : r.thread_ts = ts) :
    get_tuple db ⟨tid, some ts⟩ =
      some ⟨⟨tid, some ts⟩, r.checkpoint, r.metadata, parentConfigOf tid r.parent_ts⟩ := by
  have htr : pyTruthy (some ts) = true := by simp [pyTruthy, hts]
  have hpred : (fun x : Row => x.thread_id == tid && x.thread_ts == (some ts).getD "") r
      = true := by simp [h1, h2]
  have hsome : (db.find? (fun x : Row =>
      x.thread_id == tid && x.thread_ts == (some ts).getD "")).isSome := by
    rw [List.find?_isSome]
    exact ⟨r, hr, hpred⟩
  rcases Option.isSome_iff_exists.mp hsome with ⟨x, hx⟩
  have hxmem : x ∈ db := List.mem_of_find?_eq_some hx
  have hxpred := List.find?_some hx
  simp only [Option.getD_some, Bool.and_eq_true, beq_iff_eq] at hxpred
  have hxr : x = r :=
    wf_key_inj hwf hxmem hr (by simp [keyOf, hxpred.1, hxpred.2, h1, h2])
  simp only [get_tuple, htr, if_true, hx, hxr]

theorem get_tuple_exact_none {db : Db} {tid ts : String} (hts : ts ≠ "")
    (habs : ∀ r ∈ db, ¬(r.thread_id = tid ∧ r.thread_ts = ts)) :
    get_tuple db ⟨tid, some ts⟩ = none := by
  have htr : pyTruthy (some ts) = true := by simp [pyTruthy, hts]
  have hnone : db.find? (fun x : Row =>
      x.thread_id == tid && x.thread_ts == (some ts).getD "") = none := by
    rw [List.find?_eq_none]
    intro r hr
    simp only [Option.getD_some, Bool.and_eq_true, beq_iff_eq]
    intro h
    exact habs r hr h
  simp only [get_tuple, htr, if_true, hnone]

theorem get_tuple_latest {db : Db} {tid : String} {r : Row} (hwf : WF db)
    (hr : r ∈ db) (h1 : r.thread_id = tid)
    (hmax : ∀ r' ∈ db, r'.thread_id = tid → r'.thread_ts.data ≤ r.thread_ts.data) :
    get_tuple db ⟨tid, none⟩ = some (rowToTuple r) := by
  have hhead : (sortDesc (db.filter (fun x => x.thread_id == tid))).head? = some r := by
    apply head_sortDesc_eq_max (r := r)
    · exact List.mem_filter.mpr ⟨hr, by simp [h1]⟩
    · intro r' hr'
      rcases List.mem_filter.mp hr' with ⟨hmem, hpred⟩
      exact hmax r' hmem (by simpa using hpred)
    · intro r' hr' hts
      rcases List.mem_filter.mp hr' with ⟨hmem, hpred⟩
      exact wf_key_inj hwf hmem hr (by simp [keyOf, hts, h1, by simpa using hpred])
  simp only [get_tuple, pyTruthy, Bool.false_eq_true, if_false, hhead]

theorem get_tuple_latest_none {db : Db} {tid : String}
    (habs : ∀ r ∈ db, r.thread_id ≠ tid) :
    get_tuple db ⟨tid, none⟩ = none := by
  have hfil : db.filter (fun x => x.thread_id == tid) = [] := by
    apply List.filter_eq_nil_iff.mpr
    intro r hr
    simpa using habs r hr
  simp only [get_tuple, pyTruthy, Bool.false_eq_true, if_false, hfil]
  rfl

theorem applyPuts_append (tid : String) (ps qs : List (Option String × Checkpoint × Metadata))
    (db : Db) : applyPuts tid (ps ++ qs) db = applyPuts tid qs (applyPuts tid ps db) := by
  simp [applyPuts, List.foldl_append]

theorem mem_applyPuts {tid : String} {ps : List (Option String × Checkpoint × Metadata)}
    {db : Db} {r : Row} (h : r ∈ applyPuts tid ps db) :
    r ∈ db ∨ ∃ p ∈ ps, r = rowOfPut tid p := by
  induction ps generalizing db with
  | nil => exact Or.inl h
  | cons p ps ih =>
    have h' : r ∈ applyPuts tid ps (put db ⟨tid, p.1⟩ p.2.1 p.2.2).1 := h
    rcases ih h' with hmem | ⟨q, hq, hrq⟩
    · rw [put_fst] at hmem
      rcases List.mem_append.mp hmem with hmem | hmem
      · exact Or.inl (List.mem_filter.mp hmem).1
      · refine Or.inr ⟨p, List.mem_cons_self p ps, ?_⟩
        simpa [putRow, rowOfPut] using List.mem_singleton.mp hmem
    · exact Or.inr ⟨q, List.mem_cons_of_mem p hq, hrq⟩

/-- `applyPuts` preserves the primary-key invariant. -/
theorem wf_applyPuts (tid : String) (ps : List (Option String × Checkpoint × Metadata))
    {db : Db} (hwf : WF db) : WF (applyPuts tid ps db) := by
  induction ps generalizing db with
  | nil => exact hwf
  | cons p ps ih => exact ih (wf_put db ⟨tid, p.1⟩ p.2.1 p.2.2 hwf)

/-- After a sequence of `put` calls against one thread with strictly
increasing checkpoint ids (starting from an empty store), a `get` with no
explicit id returns the most recently written checkpoint. -/
theorem get_after_increasing_puts (tid : String)
    (qs : List (Option String × Checkpoint × Metadata))
    (l : Option String × Checkpoint × Metadata)
    (hchain : List.Chain' putIdLt (qs ++ [l])) :
    get_tuple (applyPuts tid (qs ++ [l]) []) ⟨tid, none⟩ =
      some (rowToTuple (rowOfPut tid l)) := by
  have hpair : List.Pairwise putIdLt (qs ++ [l]) := List.chain'_iff_pairwise.mp hchain
  have hlt : ∀ p ∈ qs, putIdLt p l := by
    intro p hp
    exact (List.pairwise_append.mp hpair).2.2 p hp l (List.mem_singleton.mpr rfl)
  have hdb' : applyPuts tid (qs ++ [l]) [] =
      (put (applyPuts tid qs []) ⟨tid, l.1⟩ l.2.1 l.2.2).1 := by
    rw [applyPuts_append]
    rfl
  have hpre : ∀ r ∈ applyPuts tid qs [],
      r.thread_id = tid ∧ r.thread_ts.data < l.2.1.id.data := by
    intro r hr
    rcases mem_applyPuts hr with hmem | ⟨p, hp, hrp⟩
    · exact absurd hmem (List.not_mem_nil r)
    · exact ⟨by rw [hrp]; rfl, by rw [hrp]; exact hlt p hp⟩
  rw [hdb']
  apply get_tuple_latest (r := rowOfPut tid l)
  · exact wf_put _ _ _ _ (wf_applyPuts tid qs (by simp [WF]))
  · rw [put_fst]
    exact List.mem_append_right _ (List.mem_singleton.mpr rfl)
  · rfl
  · intro r' hr' _
    rw [put_fst] at hr'
    rcases List.mem_append.mp hr' with hmem | hmem
    · exact le_of_lt (hpre r' (List.mem_filter.mp hmem).1).2
    · rw [List.mem_singleton.mp hmem]
      exact le_refl _

/-- C3: on a store satisfying the primary-key invariant, `get_tuple` with a
(truthy) `checkpoint_id` returns the tuple of exactly that
`(thread_id, checkpoint_id)` row and `none` when no such row exists; with no
`checkpoint_id` it returns the tuple of the row with the lexicographically
greatest `checkpoint_id` of that thread and `none` when the thread has no
rows; and after any nonempty sequence of `put` calls to one thread with
strictly increasing checkpoint ids (from an empty store), `get_tuple` with
no explicit id returns the most recently written checkpoint. -/
theorem c3_get_exact_or_latest :
    (∀ (db : Db) (tid ts : String) (r : Row), WF db → ts ≠ "" → r ∈ db →
      r.thread_id = tid → r.thread_ts = ts →
      get_tuple db ⟨tid, some ts⟩ =
        some ⟨⟨tid, some ts⟩, r.checkpoint, r.metadata, parentConfigOf tid r.parent_ts⟩) ∧
    (∀ (db : Db) (tid ts : String), ts ≠ "" →
      (∀ r ∈ db, ¬(r.thread_id = tid ∧ r.thread_ts = ts)) →
      get_tuple db ⟨tid, some ts⟩ = none) ∧
    (∀ (db : Db) (tid : String) (r : Row), WF db → r ∈ db → r.thread_id = tid →
      (∀ r' ∈ db, r'.thread_id = tid → r'.thread_ts.data ≤ r.thread_ts.data) →
      get_tuple db ⟨tid, none⟩ = some (rowToTuple r)) ∧
    (∀ (db : Db) (tid : String), (∀ r ∈ db, r.thread_id ≠ tid) →
      get_tuple db ⟨tid, none⟩ = none) ∧
    (∀ (tid : String) (qs : List (Option String × Checkpoint × Metadata))
        (l : Option String × Checkpoint × Metadata),
      List.Chain' putIdLt (qs ++ [l]) →
      get_tuple (applyPuts tid (qs ++ [l]) []) ⟨tid, none⟩ =
        some (rowToTuple (rowOfPut tid l))) :=
  ⟨fun _ _ _ _ hwf hts hr h1 h2 => get_tuple_exact hwf hts hr h1 h2,
   fun _ _ _ hts habs => get_tuple_exact_none hts habs,
   fun _ _ _ hwf hr h1 hmax => get_tuple_latest hwf hr h1 hmax,
   fun _ _ habs => get_tuple_latest_none habs,
   fun tid qs l hchain => get_after_increasing_puts tid qs l hchain⟩

/-- Witness for C3 at concrete inputs: a one-row store hit exactly and via
the latest-checkpoint path, a miss, and a two-`put` increasing sequence. -/
theorem c3_get_exact_or_latest_witness :
    get_tuple [⟨"1", "a", none, ⟨"a", "p"⟩, []⟩] ⟨"1", some "a"⟩ =
      some ⟨⟨"1", some "a"⟩, ⟨"a", "p"⟩, [], parentConfigOf "1" none⟩ ∧
    get_tuple [⟨"1", "a", none, ⟨"a", "p"⟩, []⟩] ⟨"1", some "z"⟩ = none ∧
    get_tuple [⟨"1", "a", none, ⟨"a", "p"⟩, []⟩] ⟨"1", none⟩ =
      some (rowToTuple ⟨"1", "a", none, ⟨"a", "p"⟩, []⟩) ∧
    get_tuple [⟨"1", "a", none, ⟨"a", "p"⟩, []⟩] ⟨"2", none⟩ = none ∧
    get_tuple (applyPuts "1" ([(none, ⟨"a", "p"⟩, [])] ++ [(some "a", ⟨"b", "q"⟩, [])]) [])
        ⟨"1", none⟩ =
      some (rowToTuple (rowOfPut "1" (some "a", ⟨"b", "q"⟩, []))) := by
  refine ⟨?_, ?_, ?_, ?_, ?_⟩
  · exact c3_get_exact_or_latest.1 [⟨"1", "a", none, ⟨"a", "p"⟩, []⟩] "1" "a"
      ⟨"1", "a", none, ⟨"a", "p"⟩, []⟩ (by simp [WF]) (by decide)
      (List.mem_singleton.mpr rfl) rfl rfl
  · exact c3_get_exact_or_latest.2.1 [⟨"1", "a", none, ⟨"a", "p"⟩, []⟩] "1" "z"
      (by decide) (by intro r hr; rw [List.mem_singleton.mp hr]; simp)
  · exact c3_get_exact_or_latest.2.2.1 [⟨"1", "a", none, ⟨"a", "p"⟩, []⟩] "1"
      ⟨"1", "a", none, ⟨"a", "p"⟩, []⟩ (by simp [WF]) (List.mem_singleton.mpr rfl) rfl
      (by intro r' hr' _; rw [List.mem_singleton.mp hr'])
  · exact c3_get_exact_or_latest.2.2.2.1 [⟨"1", "a", none, ⟨"a", "p"⟩, []⟩] "2"
      (by intro r hr; rw [List.mem_singleton.mp hr]; simp)
  · exact c3_get_exact_or_latest.2.2.2.2 "1" [(none, ⟨"a", "p"⟩, [])]
      (some "a", ⟨"b", "q"⟩, [])
      (List.chain'_cons.mpr ⟨by decide, List.chain'_singleton _⟩)

theorem tupleTs_rowToTuple (r : Row) : tupleTs (rowToTuple r) = r.thread_ts := rfl

theorem applyLimit_sublist (limit : Option Int) (rows : List Row) :
    (applyLimit limit rows).Sublist rows := by
  cases limit with
  | none => exact List.Sublist.refl rows
  | some k =>
    simp only [applyLimit]
    split
    · exact List.Sublist.refl rows
    · split
      · exact List.Sublist.refl rows
      · exact List.take_sublist _ rows

theorem applyLimit_nonpos {k : Int} (hk : k ≤ 0) (rows : List Row) :
    applyLimit (some k) rows = rows := by
  rcases lt_or_eq_of_le hk with hlt | heq
  · simp only [applyLimit]
    rw [if_neg (by exact ne_of_lt hlt), if_pos hlt]
  · simp [applyLimit, heq.symm]

theorem applyLimit_length_le {k : Int} (hk : 0 < k) (rows : List Row) :
    (applyLimit (some k) rows).length ≤ k.toNat := by
  simp only [applyLimit]
  rw [if_neg (by exact ne_of_gt hk), if_neg (by exact not_lt_of_gt hk)]
  exact le_trans (List.length_take_le _ _) (le_refl _)

/-- Rows selected by `list`'s WHERE clause, after sorting, are pairwise
strictly descending in `thread_ts` under the primary-key invariant (the
selected rows all belong to one thread, so their keys force distinct
timestamps). -/
theorem sorted_filter_thread_strict {db : Db} (hwf : WF db) (p : Row → Bool)
    (tid : String) (hp : ∀ r, p r = true → r.thread_id = tid) :
    (sortDesc (db.filter p)).Pairwise
      (fun a b => b.thread_ts.data < a.thread_ts.data) := by
  have hsorted : List.Pairwise tsDesc (sortDesc (db.filter p)) :=
    sortDesc_sorted (db.filter p)
  have hnodup : ((db.filter p).map keyOf).Nodup :=
    ((List.filter_sublist db).map keyOf).nodup hwf
  have hkeys : (db.filter p).Pairwise (fun a b => keyOf a ≠ keyOf b) :=
    (List.pairwise_map).mp hnodup
  have hkeys' : (sortDesc (db.filter p)).Pairwise (fun a b => keyOf a ≠ keyOf b) :=
    ((sortDesc_perm (db.filter p)).pairwise_iff (fun h e => h e.symm)).mpr hkeys
  have hand := hsorted.and hkeys'
  apply hand.imp_of_mem
  intro a b ha hb hab
  have hamem : a ∈ db.filter p := mem_sortDesc.mp ha
  have hbmem : b ∈ db.filter p := mem_sortDesc.mp hb
  have hatid : a.thread_id = tid := hp a (List.mem_filter.mp hamem).2
  have hbtid : b.thread_id = tid := hp b (List.mem_filter.mp hbmem).2
  refine lt_of_le_of_ne hab.1 ?_
  intro hdata
  exact hab.2 (by simp [keyOf, hatid, hbtid, strData_inj hdata])

/-- C5: `list` yields one thread's tuples in strictly descending
`thread_ts` order (on a store satisfying the primary-key invariant); with
`before` it yields only tuples with `thread_ts` strictly below the bound;
a positive `limit` caps the count; a non-positive or absent `limit` yields
the unbounded sequence; and without a limit it yields exactly the thread's
rows that pass the `before` bound. -/
theorem c5_list_order_before_limit :
    (∀ (db : Db) (config : Locator) (before : Option String) (limit : Option Int),
      WF db →
      (listCheckpoints db config before limit).Pairwise
        (fun a b => (tupleTs b).data < (tupleTs a).data)) ∧
    (∀ (db : Db) (config : Locator) (b : String) (limit : Option Int)
        (t : CheckpointTuple),
      t ∈ listCheckpoints db config (some b) limit → (tupleTs t).data < b.data) ∧
    (∀ (db : Db) (config : Locator) (before : Option String) (k : Int), 0 < k →
      (listCheckpoints db config before (some k)).length ≤ k.toNat) ∧
    (∀ (db : Db) (config : Locator) (before : Option String) (k : Int), k ≤ 0 →
      listCheckpoints db config before (some k) = listCheckpoints db config before none) ∧
    (∀ (db : Db) (config : Locator) (before : Option String) (t : CheckpointTuple),
      t ∈ listCheckpoints db config before none ↔
        ∃ r ∈ db, (r.thread_id == config.thread_id &&
            (match before with | some b => tsLtB r.thread_ts b | none => true)) = true ∧
          t = rowToTuple r) := by
  refine ⟨?_, ?_, ?_, ?_, ?_⟩
  · intro db config before limit hwf
    have hstrict := sorted_filter_thread_strict hwf
      (fun r => r.thread_id == config.thread_id &&
        (match before with | some b => tsLtB r.thread_ts b | none => true))
      config.thread_id
      (by
        intro r hr
        simp only [Bool.and_eq_true] at hr
        exact eq_of_beq hr.1)
    have hsub := List.Pairwise.sublist (applyLimit_sublist limit _) hstrict
    exact List.Pairwise.map rowToTuple
      (fun a b h => by simpa [tupleTs_rowToTuple] using h) hsub
  · intro db config b limit t ht
    rcases List.mem_map.mp ht with ⟨r, hr, rfl⟩
    have hr' : r ∈ sortDesc (db.filter _) := (applyLimit_sublist limit _).subset hr
    have hpred := (List.mem_filter.mp (mem_sortDesc.mp hr')).2
    simp only [Bool.and_eq_true] at hpred
    have hlt : tsLtB r.thread_ts b = true := hpred.2
    simpa [tupleTs_rowToTuple] using of_decide_eq_true hlt
  · intro db config before k hk
    calc (listCheckpoints db config before (some k)).length
        = (applyLimit (some k) (sortDesc _)).length := List.length_map _ _
      _ ≤ k.toNat := applyLimit_length_le hk _
  · intro db config before k hk
    show (applyLimit (some k) _).map rowToTuple = (applyLimit none _).map rowToTuple
    rw [applyLimit_nonpos hk]
    rfl
  · intro db config before t
    constructor
    · intro ht
      rcases List.mem_map.mp ht with ⟨r, hr, rfl⟩
      have hr' : r ∈ db.filter _ := mem_sortDesc.mp hr
      exact ⟨r, (List.mem_filter.mp hr').1, (List.mem_filter.mp hr').2, rfl⟩
    · rintro ⟨r, hmem, hpred, rfl⟩
      exact List.mem_map.mpr ⟨r, mem_sortDesc.mpr (List.mem_filter.mpr ⟨hmem, hpred⟩), rfl⟩

/-- A small concrete store used by the witnesses: two checkpoints on thread
"1" and one on thread "2". -/
def dbW : Db :=
  [⟨"1", "a", none, ⟨"a", "p"⟩, []⟩,
   ⟨"1", "b", some "a", ⟨"b", "q"⟩, [("source", PyVal.pyStr "input")]⟩,
   ⟨"2", "c", none, ⟨"c", "r"⟩, []⟩]

/-- Witness for C5 at concrete inputs. -/
theorem c5_list_order_before_limit_witness :
    (listCheckpoints dbW ⟨"1", none⟩ none none).Pairwise
      (fun a b => (tupleTs b).data < (tupleTs a).data) ∧
    (tupleTs (rowToTuple ⟨"1", "a", none, ⟨"a", "p"⟩, []⟩)).data < "b".data ∧
    (listCheckpoints dbW ⟨"1", none⟩ none (some 1)).length ≤ (1 : Int).toNat ∧
    listCheckpoints dbW ⟨"1", none⟩ none (some (-1)) =
      listCheckpoints dbW ⟨"1", none⟩ none none := by
  refine ⟨?_, ?_, ?_, ?_⟩
  · exact c5_list_order_before_limit.1 dbW ⟨"1", none⟩ none none (by unfold WF; decide)
  · exact c5_list_order_before_limit.2.1 dbW ⟨"1", none⟩ "b" none
      (rowToTuple ⟨"1", "a", none, ⟨"a", "p"⟩, []⟩) (List.mem_singleton.mpr rfl)
  · exact c5_list_order_before_limit.2.2.1 dbW ⟨"1", none⟩ none 1 (by decide)
  · exact c5_list_order_before_limit.2.2.2.1 dbW ⟨"1", none⟩ none (-1) (by decide)

theorem sqlEqVal_text_iff (x : SqlVal) (s : String) :
    sqlEqVal x (.text s) = true ↔ x = .text s := by
  cases x <;> simp [sqlEqVal]

/-- C6: `search` scans all threads with no `thread_id` restriction: without
`before`/`limit` its results are exactly the tuples of the rows whose
metadata matches every filter entry; results are ordered by `thread_ts`
descending; the empty filter with no bound yields every row of the store;
a positive limit caps the count; and the filter `{"source": "input"}`
matches exactly the rows whose `source` field extracts as the text
`"input"`. -/
theorem c6_search_matches_across_threads :
    (∀ (db : Db) (metadata_filter : List (String × PyVal)) (t : CheckpointTuple),
      t ∈ search db metadata_filter none none ↔
        ∃ r ∈ db, rowMatchesFilter metadata_filter r.metadata = true ∧ t = rowToTuple r) ∧
    (∀ (db : Db) (metadata_filter : List (String × PyVal)) (before : Option String)
        (limit : Option Int),
      (search db metadata_filter before limit).Pairwise
        (fun a b => (tupleTs b).data ≤ (tupleTs a).data)) ∧
    (∀ db : Db, List.Perm (search db [] none none) (db.map rowToTuple)) ∧
    (∀ (db : Db) (metadata_filter : List (String × PyVal)) (before : Option String)
        (k : Int), 0 < k →
      (search db metadata_filter before (some k)).length ≤ k.toNat) ∧
    (∀ md : Metadata,
      rowMatchesFilter [("source", PyVal.pyStr "input")] md = true ↔
        json_extract md "source" = SqlVal.text "input") := by
  refine ⟨?_, ?_, ?_, ?_, ?_⟩
  · intro db metadata_filter t
    constructor
    · intro ht
      rcases List.mem_map.mp ht with ⟨r, hr, rfl⟩
      have hr' : r ∈ db.filter _ := mem_sortDesc.mp hr
      have hpred := (List.mem_filter.mp hr').2
      simp only [Bool.and_eq_true] at hpred
      exact ⟨r, (List.mem_filter.mp hr').1, hpred.1, rfl⟩
    · rintro ⟨r, hmem, hmatch, rfl⟩
      refine List.mem_map.mpr ⟨r, mem_sortDesc.mpr (List.mem_filter.mpr ⟨hmem, ?_⟩), rfl⟩
      simp only [Bool.and_eq_true]
      exact ⟨hmatch, by trivial⟩
  · intro db metadata_filter before limit
    have hsorted : List.Pairwise tsDesc (sortDesc (db.filter (fun r =>
        rowMatchesFilter metadata_filter r.metadata &&
        (match before with
         | some b => tsLtB r.thread_ts b
         | none => true)))) := sortDesc_sorted _
    have hsub := List.Pairwise.sublist (applyLimit_sublist limit _) hsorted
    exact List.Pairwise.map rowToTuple
      (fun a b h => by simpa [tupleTs_rowToTuple] using h) hsub
  · intro db
    have hfil : db.filter (fun r =>
        rowMatchesFilter [] r.metadata &&
        (match (none : Option String) with
         | some b => tsLtB r.thread_ts b
         | none => true)) = db :=
      List.filter_eq_self.mpr (fun a _ => rfl)
    show List.Perm ((applyLimit none (sortDesc _)).map rowToTuple) _
    rw [hfil]
    exact (sortDesc_perm db).map rowToTuple
  · intro db metadata_filter before k hk
    calc (search db metadata_filter before (some k)).length
        = (applyLimit (some k) (sortDesc _)).length := List.length_map _ _
      _ ≤ k.toNat := applyLimit_length_le hk _
  · intro md
    have h1 : rowMatchesFilter [("source", PyVal.pyStr "input")] md
        = sqlEqVal (json_extract md "source") (SqlVal.text "input") := by
      show (entryMatches md "source" (PyVal.pyStr "input") && true) = _
      rw [Bool.and_true]
      rfl
    rw [h1]
    exact sqlEqVal_text_iff _ _

/-- Witness for C6 at concrete inputs. -/
theorem c6_search_matches_across_threads_witness :
    rowToTuple ⟨"1", "b", some "a", ⟨"b", "q"⟩, [("source", PyVal.pyStr "input")]⟩ ∈
      search dbW [("source", PyVal.pyStr "input")] none none ∧
    (search dbW [] none (some 1)).length ≤ (1 : Int).toNat := by
  constructor
  · exact (c6_search_matches_across_threads.1 dbW [("source", PyVal.pyStr "input")] _).mpr
      ⟨⟨"1", "b", some "a", ⟨"b", "q"⟩, [("source", PyVal.pyStr "input")]⟩,
       List.mem_cons_of_mem _ (List.mem_cons_self _ _), rfl, rfl⟩
  · exact c6_search_matches_across_threads.2.2.2.1 dbW [] none 1 (by decide)

theorem strFoldlAppend_data (l : List String) (a : String) :
    (l.foldl (fun r s => r ++ s) a).data = a.data ++ (l.map String.data).flatten := by
  induction l generalizing a with
  | nil => simp
  | cons x xs ih =>
    simp only [List.foldl_cons, List.map_cons, List.flatten_cons]
    rw [ih, String.data_append, List.append_assoc]

theorem strJoin_data (l : List String) :
    (String.join l).data = (l.map String.data).flatten := by
  exact strFoldlAppend_data l ""

theorem strJoin_cons (x : String) (xs : List String) :
    String.join (x :: xs) = x ++ String.join xs := by
  apply strData_inj
  rw [String.data_append, strJoin_data, strJoin_data]
  simp

/-- Spec-side rendering of the metadata predicate: the per-key fragments
joined by `AND` (one trailing space at the end, as the code leaves it).
This definition follows the spec's words and is compared against the
code-derived `metadataPredicate`. -/
def andJoinSpec : List String → String
  | [] => ""
  | [p] => p ++ " "
  | p :: q :: qs => p ++ " AND " ++ andJoinSpec (q :: qs)

theorem pySliceUpToMinus4_data (s : String) :
    (pySliceUpToMinus4 s).data = s.data.take (s.data.length - 4) := rfl

theorem sliceJoinAnd (p : String) (qs : List String) :
    pySliceUpToMinus4 (String.join ((p :: qs).map (· ++ " AND "))) =
      andJoinSpec (p :: qs) := by
  induction qs generalizing p with
  | nil =>
    apply strData_inj
    rw [pySliceUpToMinus4_data]
    have hm : ([p].map (· ++ " AND ")) = [p ++ " AND "] := rfl
    rw [hm]
    have hj : String.join [p ++ " AND "] = p ++ " AND " := by
      rw [strJoin_cons]
      exact String.append_empty _
    rw [hj]
    show (p ++ " AND ").data.take ((p ++ " AND ").data.length - 4) = (p ++ " ").data
    rw [String.data_append, String.data_append]
    have h5 : (" AND ".data).length = 5 := rfl
    have hlen : (p.data ++ " AND ".data).length - 4 = p.data.length + 1 := by
      rw [List.length_append, h5]
      omega
    rw [hlen, List.take_append 1]
    rfl
  | cons q qs ih =>
    apply strData_inj
    rw [pySliceUpToMinus4_data]
    have hmap : ((p :: q :: qs).map (· ++ " AND ")) =
        (p ++ " AND ") :: (q :: qs).map (· ++ " AND ") := rfl
    rw [hmap, strJoin_cons, String.data_append]
    have hRlen : 4 ≤ (String.join ((q :: qs).map (· ++ " AND "))).data.length := by
      have hm2 : ((q :: qs).map (· ++ " AND ")) =
          (q ++ " AND ") :: qs.map (· ++ " AND ") := rfl
      rw [hm2, strJoin_cons, String.data_append, List.length_append, String.data_append,
        List.length_append]
      have h5 : (" AND ".data).length = 5 := rfl
      omega
    have hlen : ((p ++ " AND ").data ++
        (String.join ((q :: qs).map (· ++ " AND "))).data).length - 4 =
        (p ++ " AND ").data.length +
          ((String.join ((q :: qs).map (· ++ " AND "))).data.length - 4) := by
      rw [List.length_append]
      omega
    rw [hlen, List.take_append]
    have hspec : andJoinSpec (p :: q :: qs) = (p ++ " AND ") ++ andJoinSpec (q :: qs) := by
      show p ++ " AND " ++ andJoinSpec (q :: qs) = _
      rfl
    rw [hspec, String.data_append]
    congr 1
    have hih := congrArg String.data (ih q)
    rw [pySliceUpToMinus4_data] at hih
    exact hih

theorem strJoin_ne_empty (p : String) (qs : List String) :
    (String.join ((p :: qs).map (· ++ " AND ")) == "") = false := by
  apply beq_eq_false_iff_ne.mpr
  have hm : ((p :: qs).map (· ++ " AND ")) = (p ++ " AND ") :: qs.map (· ++ " AND ") := rfl
  rw [hm, strJoin_cons]
  intro h
  have hd := congrArg String.data h
  rw [String.data_append, String.data_append] at hd
  simp at hd

/-- The predicate string built by `_metadata_predicate` is exactly the
AND-join (in filter order) of the per-key fragments. -/
theorem metadataPredicate_fst (metadata_filter : List (String × PyVal)) :
    (metadataPredicate metadata_filter).1 =
      andJoinSpec (metadata_filter.map
        (fun kv => predicateFor kv.1 (whereValue kv.2).1)) := by
  cases metadata_filter with
  | nil => rfl
  | cons kv kvs =>
    have hm : (kv :: kvs).map (fun kv => predicateFor kv.1 (whereValue kv.2).1 ++ " AND ")
        = ((kv :: kvs).map (fun kv => predicateFor kv.1 (whereValue kv.2).1)).map
            (· ++ " AND ") := by
      rw [List.map_map]
      rfl
    show (if (String.join ((kv :: kvs).map
          (fun kv => predicateFor kv.1 (whereValue kv.2).1 ++ " AND ")) == "") = true
        then String.join ((kv :: kvs).map
          (fun kv => predicateFor kv.1 (whereValue kv.2).1 ++ " AND "))
        else pySliceUpToMinus4 (String.join ((kv :: kvs).map
          (fun kv => predicateFor kv.1 (whereValue kv.2).1 ++ " AND ")))) = _
    rw [hm]
    have hlist : ((kv :: kvs).map (fun kv => predicateFor kv.1 (whereValue kv.2).1))
        = predicateFor kv.1 (whereValue kv.2).1 ::
            kvs.map (fun kv => predicateFor kv.1 (whereValue kv.2).1) := rfl
    rw [hlist, strJoin_ne_empty]
    simp only [Bool.false_eq_true, if_false]
    exact sliceJoinAnd _ _

/-- C7: the builder maps a null filter value to the null-safe `IS ?`
operator binding null; an object/array value to equality binding the
value's compact JSON encoding (concretely: no whitespace after the `,` and
`:` separators); the per-key fragments are AND-joined in filter order; and
the parameter values travel in the parameter tuple while the predicate
string depends only on the keys and the chosen operators, never on the
filter values. -/
theorem c7_builder_null_json_params :
    whereValue PyVal.pyNone = ("IS ?", PyVal.pyNone) ∧
    bindParam PyVal.pyNone = SqlVal.null ∧
    (∀ kvs : List (String × PyVal),
      whereValue (PyVal.pyDict kvs) =
        ("= ?", PyVal.pyStr (jsonDumps (PyVal.pyDict kvs)))) ∧
    (∀ xs : List PyVal,
      whereValue (PyVal.pyList xs) =
        ("= ?", PyVal.pyStr (jsonDumps (PyVal.pyList xs)))) ∧
    jsonDumps (PyVal.pyDict [("a", PyVal.pyInt 1),
        ("b", PyVal.pyList [PyVal.pyBool true, PyVal.pyNone])]) =
      "\x7b\"a\":1,\"b\":[true,null]\x7d" ∧
    (∀ metadata_filter : List (String × PyVal),
      (metadataPredicate metadata_filter).1 =
        andJoinSpec (metadata_filter.map
          (fun kv => predicateFor kv.1 (whereValue kv.2).1)) ∧
      (metadataPredicate metadata_filter).2 =
        metadata_filter.map (fun kv => (whereValue kv.2).2)) ∧
    (∀ f g : List (String × PyVal),
      f.map (fun kv => (kv.1, (whereValue kv.2).1)) =
        g.map (fun kv => (kv.1, (whereValue kv.2).1)) →
      (metadataPredicate f).1 = (metadataPredicate g).1) := by
  refine ⟨rfl, rfl, fun kvs => rfl, fun xs => rfl, rfl,
    fun mf => ⟨metadataPredicate_fst mf, rfl⟩, ?_⟩
  intro f g h
  rw [metadataPredicate_fst, metadataPredicate_fst]
  have hf : f.map (fun kv => predicateFor kv.1 (whereValue kv.2).1) =
      (f.map (fun kv => (kv.1, (whereValue kv.2).1))).map
        (fun p => predicateFor p.1 p.2) := by
    rw [List.map_map]
    rfl
  have hg : g.map (fun kv => predicateFor kv.1 (whereValue kv.2).1) =
      (g.map (fun kv => (kv.1, (whereValue kv.2).1))).map
        (fun p => predicateFor p.1 p.2) := by
    rw [List.map_map]
    rfl
  rw [hf, hg, h]

/-- Witness for C7: two filters with the same key and value type but
different values produce the same predicate string. -/
theorem c7_builder_null_json_params_witness :
    (metadataPredicate [("k", PyVal.pyStr "x")]).1 =
      (metadataPredicate [("k", PyVal.pyStr "y")]).1 :=
  c7_builder_null_json_params.2.2.2.2.2.2 [("k", PyVal.pyStr "x")]
    [("k", PyVal.pyStr "y")] rfl

/-- C1 counterexample: on a boolean filter value `_where_value` does not
bind the 0/1 integer encoding — `isinstance(True, int)` holds in Python, so
the scalar branch captures the boolean first and returns it unchanged; the
explicit bool branch is unreachable. -/
theorem c1_counterexample_bool_not_encoded :
    whereValue (PyVal.pyBool true) = ("= ?", PyVal.pyBool true) ∧
    (whereValue (PyVal.pyBool true)).2 ≠ PyVal.pyInt 1 ∧
    (whereValue (PyVal.pyBool false)).2 ≠ PyVal.pyInt 0 :=
  ⟨rfl, fun h => PyVal.noConfusion h, fun h => PyVal.noConfusion h⟩

/-- C1 (amended): the builder selects the operator by value type, but a
boolean filter value takes the scalar string/int/float branch (Python's
`bool` being a subclass of `int`) and is bound unchanged; its 0/1 integer
encoding arises only when the driver binds the parameter.  Strings,
integers and floats are bound unchanged under equality, and null takes the
`IS ?` branch. -/
theorem c1_amended_scalar_branch_captures_bool (b : Bool) (s v : String) (n : Int) :
    whereValue (PyVal.pyBool b) = ("= ?", PyVal.pyBool b) ∧
    bindParam (whereValue (PyVal.pyBool b)).2 = SqlVal.int (if b then 1 else 0) ∧
    whereValue (PyVal.pyStr s) = ("= ?", PyVal.pyStr s) ∧
    whereValue (PyVal.pyInt n) = ("= ?", PyVal.pyInt n) ∧
    whereValue (PyVal.pyFloat v) = ("= ?", PyVal.pyFloat v) ∧
    whereValue PyVal.pyNone = ("IS ?", PyVal.pyNone) :=
  ⟨rfl, rfl, rfl, rfl, rfl, rfl⟩

/-- C9: a present-but-falsy `thread_ts` in the locator (the empty string)
sends `get_tuple` down the latest-checkpoint branch, exactly as if the key
were absent. -/
theorem c9_empty_checkpoint_id_means_latest (db : Db) (tid : String) :
    get_tuple db ⟨tid, some ""⟩ = get_tuple db ⟨tid, none⟩ := rfl

/-- C10: a filter value of any type other than
`NoneType/str/int/float/bool/dict/list` falls through to the final branch:
equality binding `str(value)` — the filter is not rejected. -/
theorem c10_fallback_binds_str_value (v : String) :
    whereValue (PyVal.pyOther v) = ("= ?", PyVal.pyStr (pyStrFn (PyVal.pyOther v))) ∧
    pyStrFn (PyVal.pyOther v) = v :=
  ⟨rfl, rfl⟩

/-- Byte strings as lists of byte values. -/
abbrev ByteStr := List Nat

/-- The legacy pickle-format detection in `JsonPlusSerializerCompat.loads`:
`data.startswith(b"\x80") and data.endswith(b".")` (`0x2E` is `"."`). -/
def isLegacyPayload (data : ByteStr) : Bool :=
  [0x80].isPrefixOf data && [0x2E].isSuffixOf data

/-- `JsonPlusSerializerCompat.loads`: route a legacy payload to
`pickle.loads`, everything else to the primary `JsonPlusSerializer.loads`.
The two decoders (stdlib `pickle` and the `langgraph.serde.jsonplus`
serializer, both outside `src/`) are parameters returning `some value` on
success and `none` on a decode failure. -/
def loadsCompat {V : Type} (pickleLoads primaryLoads : ByteStr → Option V)
    (data : ByteStr) : Option V :=
  if isLegacyPayload data then pickleLoads data else primaryLoads data

theorem isPrefix_single_iff (b : Nat) (data : ByteStr) :
    ([b].isPrefixOf data) = true ↔ data.head? = some b := by
  cases data with
  | nil => simp [List.isPrefixOf]
  | cons d ds =>
    have h0 : (([] : ByteStr).isPrefixOf ds) = true := by cases ds <;> rfl
    have h : ([b].isPrefixOf (d :: ds)) = (b == d) := by
      show ((b == d) && (([] : ByteStr).isPrefixOf ds)) = (b == d)
      rw [h0, Bool.and_true]
    rw [h, List.head?_cons]
    constructor
    · intro hb
      exact congrArg some (eq_of_beq hb).symm
    · intro hh
      have hdb : d = b := by injection hh
      exact beq_iff_eq.mpr hdb.symm

theorem isSuffix_single_iff (b : Nat) (data : ByteStr) :
    ([b].isSuffixOf data) = true ↔ data.getLast? = some b := by
  show ([b].reverse.isPrefixOf data.reverse) = true ↔ _
  rw [List.getLast?_eq_head?_reverse]
  exact isPrefix_single_iff b data.reverse

/-- C8: a payload whose first byte is `0x80` and last byte is `0x2E` is
routed to the legacy unpickling path (succeeding whenever the legacy
decoder succeeds, so no decode error is raised on a well-formed legacy
payload); any payload missing either boundary byte never enters the legacy
path and is delegated to the primary decoder. -/
theorem c8_legacy_format_routing {V : Type} (pickleLoads primaryLoads : ByteStr → Option V)
    (data : ByteStr) :
    (data.head? = some 0x80 → data.getLast? = some 0x2E →
      loadsCompat pickleLoads primaryLoads data = pickleLoads data) ∧
    (∀ v : V, data.head? = some 0x80 → data.getLast? = some 0x2E →
      pickleLoads data = some v →
      loadsCompat pickleLoads primaryLoads data = some v) ∧
    (data.head? ≠ some 0x80 ∨ data.getLast? ≠ some 0x2E →
      loadsCompat pickleLoads primaryLoads data = primaryLoads data) := by
  have hiff : isLegacyPayload data = true ↔
      (data.head? = some 0x80 ∧ data.getLast? = some 0x2E) := by
    show ([0x80].isPrefixOf data && [0x2E].isSuffixOf data) = true ↔ _
    rw [Bool.and_eq_true]
    exact and_congr (isPrefix_single_iff 0x80 data) (isSuffix_single_iff 0x2E data)
  refine ⟨?_, ?_, ?_⟩
  · intro h1 h2
    simp only [loadsCompat]
    rw [if_pos (hiff.mpr ⟨h1, h2⟩)]
  · intro v h1 h2 h3
    simp only [loadsCompat]
    rw [if_pos (hiff.mpr ⟨h1, h2⟩)]
    exact h3
  · intro h
    have hnot : ¬ (isLegacyPayload data = true) := by
      intro hleg
      rcases hiff.mp hleg with ⟨h1, h2⟩
      rcases h with h | h
      · exact h h1
      · exact h h2
    simp only [loadsCompat]
    rw [if_neg hnot]

/-- Witness for C8: a legacy-framed payload decodes via the legacy decoder,
a JSON-looking payload via the primary decoder. -/
theorem c8_legacy_format_routing_witness :
    loadsCompat (fun _ => some 7) (fun _ => some 9) ([0x80, 0x00, 0x2E] : ByteStr)
      = some 7 ∧
    loadsCompat (fun _ => some 7) (fun _ => some 9) ([0x7B, 0x22, 0x7D] : ByteStr)
      = some 9 := by
  constructor
  · exact (c8_legacy_format_routing (fun _ => some 7) (fun _ => some 9)
      [0x80, 0x00, 0x2E]).2.1 7 rfl rfl rfl
  · exact (c8_legacy_format_routing (fun _ => some 7) (fun _ => some 9)
      [0x7B, 0x22, 0x7D]).2.2 (Or.inl (by decide))

/-- Witness for C4: re-putting the existing key `("1", "b")` of the
concrete store keeps the invariant and leaves exactly one row/tuple for
that key, with the new payload. -/
theorem c4_primary_key_unique_witness :
    WF (put dbW ⟨"1", some "b"⟩ ⟨"b", "new"⟩ [("step", PyVal.pyInt 9)]).1 ∧
    (put dbW ⟨"1", some "b"⟩ ⟨"b", "new"⟩ [("step", PyVal.pyInt 9)]).1.filter
        (fun r => r.thread_id == (Locator.mk "1" (some "b")).thread_id &&
          r.thread_ts == (Checkpoint.mk "b" "new").id) =
      [putRow ⟨"1", some "b"⟩ ⟨"b", "new"⟩ [("step", PyVal.pyInt 9)]] ∧
    (listCheckpoints (put dbW ⟨"1", some "b"⟩ ⟨"b", "new"⟩ [("step", PyVal.pyInt 9)]).1
          ⟨(Locator.mk "1" (some "b")).thread_id, none⟩ none none).filter
        (fun t => t.config.thread_ts == some (Checkpoint.mk "b" "new").id) =
      [rowToTuple (putRow ⟨"1", some "b"⟩ ⟨"b", "new"⟩ [("step", PyVal.pyInt 9)])] :=
  c4_primary_key_unique dbW ⟨"1", some "b"⟩ ⟨"b", "new"⟩ [("step", PyVal.pyInt 9)]
    (by unfold WF; decide)
